import Mathlib

/-!
Verification of the POP3 helper layer in `pop3extra.go` (package `pop3`,
repository m3ng9i/go-pop3).

The file shallowly embeds the helper functions `UIDL`, `UidlAll`, `TOP`,
`GetMail`, `GetInfo` and `GetList`.  The underlying base client
(`Cmd`, `ReadLines`, `RETR`, `ListAll`) and the external email parser
(`parsemail.Parse`, `parsemail.ParseHeader`) live outside this repository;
they are modelled as oracle functions carried by a `Client` record, so every
theorem is quantified over all possible behaviours of those collaborators.

Go's `(value, error)` returns are modelled with `Except`/`Outcome`; a Go
runtime panic caused by an out-of-range slice index (`strings.Fields(l)[1]`
on a short line) is modelled by the distinguished outcome `Outcome.crash`.
Go `int` is modelled as `Int` (no arithmetic in this code can overflow a
64-bit int except `strconv.Atoi` input range, which is out of scope of the
claims and modelled as unbounded).
-/

set_option autoImplicit false

namespace Pop3

/-- Errors.  `external` stands for any error produced by the base client or
the email parser; `atoiErr s` is the `strconv.Atoi` syntax error for input
`s`; `lengthMismatch` is the `fmt.Errorf` value created in `GetList` when
`len(msgs) != len(sizes)`. -/
inductive Err : Type where
  | external : String → Err
  | atoiErr : String → Err
  | lengthMismatch : Err
deriving DecidableEq, Repr

/-- Result of running a helper: a value, a Go error, or a runtime panic
(index out of range). -/
inductive Outcome (α : Type) : Type where
  | ok : α → Outcome α
  | fail : Err → Outcome α
  | crash : Outcome α
deriving DecidableEq, Repr

/-- Model of `parsemail.Email`: an opaque value produced by the external
parser.  Only its identity matters to the claims, so it wraps a string. -/
structure Email : Type where
  raw : String
deriving DecidableEq, Repr

/-- The zero value `parsemail.Email\x7b\x7d` used before a `MailItem`'s
email field is populated. -/
def Email.zero : Email := ⟨""⟩

/-- Oracle model of the session: the base client's methods
(`Cmd`, `ReadLines`, `RETR`, `ListAll`) and the external parser's functions
(`Parse`, `ParseHeader`).  `ReadLines` is keyed by the command that preceded
it, since in the source every multi-line read directly follows one `Cmd`. -/
structure Client : Type where
  Cmd : String → Except Err String
  ReadLines : String → Except Err (List String)
  RETR : Int → Except Err String
  ListAll : Except Err (List Int × List Int)
  Parse : String → Except Err Email
  ParseHeader : String → Except Err Email

instance {ε α : Type} [DecidableEq ε] [DecidableEq α] : DecidableEq (Except ε α) :=
  fun a b =>
    match a, b with
    | Except.ok x, Except.ok y =>
      if h : x = y then isTrue (by rw [h]) else isFalse (fun hc => h (Except.ok.inj hc))
    | Except.ok _, Except.error _ => isFalse (fun hc => Except.noConfusion hc)
    | Except.error _, Except.ok _ => isFalse (fun hc => Except.noConfusion hc)
    | Except.error x, Except.error y =>
      if h : x = y then isTrue (by rw [h]) else isFalse (fun hc => h (Except.error.inj hc))

/-- Helper for `fields`: walk the characters, `acc` holding the current
(reversed) run of non-whitespace characters. -/
def fieldsAux (acc : List Char) : List Char → List String
  | [] => if acc = [] then [] else [String.mk acc.reverse]
  | ch :: rest =>
    if ch.isWhitespace then
      if acc = [] then fieldsAux [] rest
      else String.mk acc.reverse :: fieldsAux [] rest
    else fieldsAux (ch :: acc) rest

/-- Model of `strings.Fields`: the maximal runs of non-whitespace characters, in
order; never contains an empty string. -/
def fields (s : String) : List String :=
  fieldsAux [] s.data

/-- Decimal value of a digit list. -/
def digitsToNat (ds : List Char) : Nat :=
  ds.foldl (fun acc ch => acc * 10 + (ch.toNat - 48)) 0

/-- Model of `strconv.Atoi`: an optional sign followed by at least one digit
(`Int` is unbounded here; the 64-bit range error is out of scope). -/
def atoi (s : String) : Except Err Int :=
  let signed : Bool × List Char :=
    match s.data with
    | '-' :: rest => (true, rest)
    | '+' :: rest => (false, rest)
    | cs => (false, cs)
  if signed.2 ≠ [] ∧ signed.2.all (fun ch => ch.isDigit) then
    Except.ok
      (if signed.1 then -(digitsToNat signed.2 : Int) else (digitsToNat signed.2 : Int))
  else Except.error (Err.atoiErr s)

/-- The formatted command `"UIDL %d\r\n"`. -/
def uidlMsgCommand (msg : Int) : String :=
  "UIDL " ++ toString msg ++ "\r\n"

/-- The command `"UIDL\r\n"`. -/
def uidlAllCommand : String := "UIDL\r\n"

/-- The formatted command `"TOP %d %d\r\n"`. -/
def topCommand (msg n : Int) : String :=
  "TOP " ++ toString msg ++ " " ++ toString n ++ "\r\n"

/-- Embeds `func (c *Client) UIDL(msg int) (uid string, err error)`:
send `UIDL msg`, take the second whitespace-separated field of the reply.
`strings.Fields(l)[1]` panics (crash) when the reply has fewer than two
fields. -/
def UIDL (c : Client) (msg : Int) : Outcome String :=
  match c.Cmd (uidlMsgCommand msg) with
  | Except.error e => Outcome.fail e
  | Except.ok l =>
    match (fields l)[1]? with
    | none => Outcome.crash
    | some uid => Outcome.ok uid

/-- The per-line loop body of `UidlAll`: for each line take
`fs := strings.Fields(l)`, parse `fs[0]` as an integer (returning the parse
error when it fails) and take `fs[1]` as the unique id.  `fs[0]` and `fs[1]`
panic (crash) when the line is too short. -/
def uidlParseLines : List String → Outcome (List Int × List String)
  | [] => Outcome.ok ([], [])
  | l :: rest =>
    match (fields l)[0]? with
    | none => Outcome.crash
    | some f0 =>
      match atoi f0 with
      | Except.error e => Outcome.fail e
      | Except.ok m =>
        match (fields l)[1]? with
        | none => Outcome.crash
        | some f1 =>
          match uidlParseLines rest with
          | Outcome.ok (ms, us) => Outcome.ok (m :: ms, f1 :: us)
          | Outcome.fail e => Outcome.fail e
          | Outcome.crash => Outcome.crash

/-- Embeds `func (c *Client) UidlAll() (msgs []int, uids []string, err error)`:
send `UIDL`, read the multi-line reply, parse each line. -/
def UidlAll (c : Client) : Outcome (List Int × List String) :=
  match c.Cmd uidlAllCommand with
  | Except.error e => Outcome.fail e
  | Except.ok _ =>
    match c.ReadLines uidlAllCommand with
    | Except.error e => Outcome.fail e
    | Except.ok lines => uidlParseLines lines

/-- Embeds `func (c *Client) TOP(msg, n int) (text string, err error)`:
send `TOP msg n`, read the reply lines, join them with `"\n"`. -/
def TOP (c : Client) (msg n : Int) : Outcome String :=
  match c.Cmd (topCommand msg n) with
  | Except.error e => Outcome.fail e
  | Except.ok _ =>
    match c.ReadLines (topCommand msg n) with
    | Except.error e => Outcome.fail e
    | Except.ok lines => Outcome.ok (String.intercalate ("\n") lines)

/-- Embeds `func (c *Client) GetMail(msg int) (email parsemail.Email, err error)`:
retrieve the full text and parse it. -/
def GetMail (c : Client) (msg : Int) : Outcome Email :=
  match c.RETR msg with
  | Except.error e => Outcome.fail e
  | Except.ok text =>
    match c.Parse text with
    | Except.error e => Outcome.fail e
    | Except.ok email => Outcome.ok email

/-- Embeds `type MailItem struct`: an embedded `parsemail.Email` plus `Size` and
`MsgNum`. -/
structure MailItem : Type where
  email : Email
  Size : Int
  MsgNum : Int
deriving DecidableEq, Repr

/-- Embeds `func (c *Client) GetInfo(msg int) (email parsemail.Email, err error)`:
fetch the first 120 lines via `TOP` and parse the header only. -/
def GetInfo (c : Client) (msg : Int) : Outcome Email :=
  match TOP c msg 120 with
  | Outcome.fail e => Outcome.fail e
  | Outcome.crash => Outcome.crash
  | Outcome.ok text =>
    match c.ParseHeader text with
    | Except.error e => Outcome.fail e
    | Except.ok email => Outcome.ok email

/-- The first loop of `GetList`: `for i := num - 1; i >= 0; i--` appending
`MailItem\x7bSize: sizes[i], MsgNum: msgs[i]\x7d` and breaking after the
append once `n > 0 && num - i >= n`.  The argument `j` is `i + 1`, so `j = 0`
is the terminated loop. -/
def collectIter (msgs sizes : List Int) (n : Int) (num : Nat) :
    Nat → List MailItem
  | 0 => []
  | j + 1 =>
    let item : MailItem := ⟨Email.zero, sizes.getD j 0, msgs.getD j 0⟩
    if n > 0 ∧ (num : Int) - (j : Int) ≥ n then [item]
    else item :: collectIter msgs sizes n num j

/-- The second loop of `GetList`: call `GetInfo` on every collected item and
store the result in its email field; the first error aborts the whole
call. -/
def fillInfo (c : Client) : List MailItem → Outcome (List MailItem)
  | [] => Outcome.ok []
  | item :: rest =>
    match GetInfo c item.MsgNum with
    | Outcome.fail e => Outcome.fail e
    | Outcome.crash => Outcome.crash
    | Outcome.ok email =>
      match fillInfo c rest with
      | Outcome.ok rest2 => Outcome.ok ({ item with email := email } :: rest2)
      | Outcome.fail e => Outcome.fail e
      | Outcome.crash => Outcome.crash

/-- Embeds `func (c *Client) GetList(n int) (list []MailItem, err error)`:
list all messages, check the two arrays have the same length, collect the
newest `n` (or all, when `n <= 0`) items newest-first, then populate each
item's email field via `GetInfo`. -/
def GetList (c : Client) (n : Int) : Outcome (List MailItem) :=
  match c.ListAll with
  | Except.error e => Outcome.fail e
  | Except.ok (msgs, sizes) =>
    let num := msgs.length
    if num ≠ sizes.length then Outcome.fail Err.lengthMismatch
    else fillInfo c (collectIter msgs sizes n num num)

/-! ### Concrete clients used to instantiate the theorems -/

/-- A fully well-behaved session: two messages, every command succeeds. -/
def cGood : Client where
  Cmd := fun _ => Except.ok ("1 uid1")
  ReadLines := fun _ => Except.ok []
  RETR := fun _ => Except.ok ("")
  ListAll := Except.ok ([1, 2], [10, 20])
  Parse := fun s => Except.ok ⟨s⟩
  ParseHeader := fun s => Except.ok ⟨s⟩

/-- A session whose unscoped `UIDL` reply has two well-formed lines. -/
def cUidl : Client where
  Cmd := fun _ => Except.ok ("+OK")
  ReadLines := fun _ => Except.ok ["1 aaa", "2 bbb"]
  RETR := fun _ => Except.ok ("")
  ListAll := Except.ok ([], [])
  Parse := fun s => Except.ok ⟨s⟩
  ParseHeader := fun s => Except.ok ⟨s⟩

/-- A session returning a malformed single-line reply (no fields) and a
multi-line reply whose line's first field is not a number. -/
def cBadLine : Client where
  Cmd := fun _ => Except.ok ("")
  ReadLines := fun _ => Except.ok ["x yy"]
  RETR := fun _ => Except.ok ("")
  ListAll := Except.ok ([], [])
  Parse := fun s => Except.ok ⟨s⟩
  ParseHeader := fun s => Except.ok ⟨s⟩

/-- A session whose `LIST` reply has arrays of different lengths. -/
def cMismatch : Client where
  Cmd := fun _ => Except.ok ("")
  ReadLines := fun _ => Except.ok []
  RETR := fun _ => Except.ok ("")
  ListAll := Except.ok ([1, 2], [10])
  Parse := fun s => Except.ok ⟨s⟩
  ParseHeader := fun s => Except.ok ⟨s⟩

/-- A session with one message whose `TOP` command is rejected. -/
def cInfoFail : Client where
  Cmd := fun s =>
    if s = topCommand 1 120 then Except.error (Err.external ("no top")) else Except.ok ("")
  ReadLines := fun _ => Except.ok []
  RETR := fun _ => Except.ok ("")
  ListAll := Except.ok ([1], [10])
  Parse := fun s => Except.ok ⟨s⟩
  ParseHeader := fun s => Except.ok ⟨s⟩

/-- A session that rejects every command. -/
def cCmdErr : Client where
  Cmd := fun _ => Except.error (Err.external ("no such message"))
  ReadLines := fun _ => Except.ok []
  RETR := fun _ => Except.ok ("")
  ListAll := Except.ok ([], [])
  Parse := fun s => Except.ok ⟨s⟩
  ParseHeader := fun s => Except.ok ⟨s⟩

/-! ### Helper lemmas -/

/-- Every string emitted by `fieldsAux` is a non-empty maximal run. -/
theorem fieldsAux_ne_empty :
    ∀ (cs acc : List Char) (t : String), t ∈ fieldsAux acc cs → t ≠ "" := by
  intro cs
  induction cs with
  | nil =>
    intro acc t ht
    unfold fieldsAux at ht
    by_cases hacc : acc = []
    · simp [hacc] at ht
    · simp [hacc] at ht
      subst ht
      intro hc
      apply hacc
      have : acc.reverse = ([] : List Char) := by
        have := congrArg String.data hc
        simpa using this
      simpa using this
  | cons ch rest ih =>
    intro acc t ht
    unfold fieldsAux at ht
    by_cases hws : ch.isWhitespace
    · simp only [hws, if_true] at ht
      by_cases hacc : acc = []
      · simp only [hacc, if_pos rfl] at ht
        exact ih [] t ht
      · simp only [if_neg hacc, List.mem_cons] at ht
        rcases ht with ht | ht
        · subst ht
          intro hc
          apply hacc
          have : acc.reverse = ([] : List Char) := by
            have := congrArg String.data hc
            simpa using this
          simpa using this
        · exact ih [] t ht
    · simp only [hws, if_false] at ht
      exact ih (ch :: acc) t ht

/-- Members of `fields s` are never the empty string. -/
theorem mem_fields_ne_empty (s : String) (t : String) (ht : t ∈ fields s) : t ≠ "" :=
  fieldsAux_ne_empty s.data [] t ht

/-- The helper `TOP` never crashes: it produces a value or an error. -/
theorem top_not_crash (c : Client) (msg n : Int) : TOP c msg n ≠ Outcome.crash := by
  unfold TOP
  cases hc : c.Cmd (topCommand msg n) with
  | error e => simp
  | ok l =>
    cases hr : c.ReadLines (topCommand msg n) with
    | error e => simp
    | ok lines => simp

/-! ### C6 -/

/-- C6: if `ListAll` returns message-number and size arrays of different
lengths, `GetList` fails with the length-mismatch error.  The conclusion
holds for every client with that `ListAll` result, whatever its other
oracles do, so no summary is built and no `GetInfo`/`TOP` command is
consulted. -/
theorem c6_getList_length_mismatch (c : Client) (n : Int) (msgs sizes : List Int)
    (hl : c.ListAll = Except.ok (msgs, sizes))
    (hne : msgs.length ≠ sizes.length) :
    GetList c n = Outcome.fail Err.lengthMismatch := by
  unfold GetList
  rw [hl]
  simp [hne]

/-- C6 witness: a concrete mismatching listing. -/
theorem c6_witness :
    cMismatch.ListAll = Except.ok ([1, 2], [10]) ∧
      GetList cMismatch 0 = Outcome.fail Err.lengthMismatch :=
  ⟨rfl, c6_getList_length_mismatch cMismatch 0 [1, 2] [10] rfl (by decide)⟩

/-! ### C7 -/

/-- With a non-positive cap the break test `n > 0 && num - i >= n` never
fires, so the collecting loop behaves as with `n = 0`. -/
theorem collectIter_nonpos (msgs sizes : List Int) (n : Int) (num : Nat)
    (hn : n ≤ 0) : ∀ j, collectIter msgs sizes n num j = collectIter msgs sizes 0 num j := by
  intro j
  induction j with
  | zero => rfl
  | succ j ih =>
    unfold collectIter
    have h1 : ¬(n > 0 ∧ (num : Int) - (j : Int) ≥ n) := by
      intro hc
      omega
    have h2 : ¬((0 : Int) > 0 ∧ (num : Int) - (j : Int) ≥ 0) := by
      intro hc
      omega
    rw [if_neg h1, if_neg h2, ih]

/-- C7: `GetList n` with `n ≤ 0` and `GetList 0` are the same function of
the session: same outcome, hence the same full list of summaries. -/
theorem c7_getList_nonpos_eq_zero (c : Client) (n : Int) (hn : n ≤ 0) :
    GetList c n = GetList c 0 := by
  unfold GetList
  cases hl : c.ListAll with
  | error e => simp
  | ok p =>
    obtain ⟨msgs, sizes⟩ := p
    simp only
    rw [collectIter_nonpos msgs sizes n msgs.length hn]

/-- C7 witness: `GetList (-3)` equals `GetList 0` on a concrete mailbox. -/
theorem c7_witness :
    (-3 : Int) ≤ 0 ∧ GetList cGood (-3) = GetList cGood 0 :=
  ⟨by decide, c7_getList_nonpos_eq_zero cGood (-3) (by decide)⟩

/-! ### C8 -/

/-- C8: `GetInfo msg` is exactly the composition of `TOP msg 120` with the
header-only parse: a `TOP` failure is returned as is, a `TOP` success is
passed to `ParseHeader` whose failure is returned as is; `GetInfo` fails
exactly when `TOP msg 120` fails or the header parse of its text fails, and
`GetInfo` depends on the session only through `TOP msg 120` and the header
parser. -/
theorem c8_getInfo_via_top (c : Client) (msg : Int) :
    (∀ e, TOP c msg 120 = Outcome.fail e → GetInfo c msg = Outcome.fail e) ∧
    (∀ text, TOP c msg 120 = Outcome.ok text →
      GetInfo c msg =
        match c.ParseHeader text with
        | Except.ok email => Outcome.ok email
        | Except.error e => Outcome.fail e) ∧
    ((∃ e, GetInfo c msg = Outcome.fail e) ↔
      ((∃ e, TOP c msg 120 = Outcome.fail e) ∨
        (∃ text e, TOP c msg 120 = Outcome.ok text ∧ c.ParseHeader text = Except.error e))) ∧
    (∀ c2 : Client, TOP c msg 120 = TOP c2 msg 120 → c.ParseHeader = c2.ParseHeader →
      GetInfo c msg = GetInfo c2 msg) := by
  have hgi : GetInfo c msg =
      match TOP c msg 120 with
      | Outcome.fail e => Outcome.fail e
      | Outcome.crash => Outcome.crash
      | Outcome.ok text =>
        match c.ParseHeader text with
        | Except.error e => Outcome.fail e
        | Except.ok email => Outcome.ok email := rfl
  refine ⟨?_, ?_, ?_, ?_⟩
  · intro e he
    rw [hgi, he]
  · intro text ht
    rw [hgi, ht]
    cases hp : c.ParseHeader text <;> simp [hp]
  · rw [hgi]
    cases ht : TOP c msg 120 with
    | ok text =>
      cases hp : c.ParseHeader text with
      | ok em => simp [hp]
      | error e2 => simp [hp]
    | fail e2 => simp
    | crash => simp
  · intro c2 htop hph
    unfold GetInfo
    rw [htop, hph]

/-- C8 witness: on a session that rejects `TOP 1 120`, `GetInfo 1` returns
that very error. -/
theorem c8_witness : GetInfo cInfoFail 1 = Outcome.fail (Err.external ("no top")) :=
  (c8_getInfo_via_top cInfoFail 1).1 (Err.external ("no top")) (by decide)

/-! ### C9 -/

/-- C9: when the scoped `UIDL` command is rejected, `UIDL msg` fails with
the command's error (no unique id is produced); and `UIDL msg` can never
succeed with the empty string, because every whitespace-separated field is
non-empty. -/
theorem c9_uidl_error_no_silent_empty (c : Client) (msg : Int) :
    (∀ e, c.Cmd (uidlMsgCommand msg) = Except.error e → UIDL c msg = Outcome.fail e) ∧
    (∀ uid, UIDL c msg = Outcome.ok uid → uid ≠ "") := by
  constructor
  · intro e he
    unfold UIDL
    rw [he]
  · intro uid hu
    unfold UIDL at hu
    cases hc : c.Cmd (uidlMsgCommand msg) with
    | error e => rw [hc] at hu; simp at hu
    | ok l =>
      rw [hc] at hu
      cases hf : (fields l)[1]? with
      | none => simp [hf] at hu
      | some t =>
        simp only [hf] at hu
        have ht : t ∈ fields l := List.getElem?_mem hf
        have hne := mem_fields_ne_empty l t ht
        cases hu
        exact hne

/-- C9 witness: a rejected scoped `UIDL` surfaces the command error. -/
theorem c9_witness :
    UIDL cCmdErr 7 = Outcome.fail (Err.external ("no such message")) :=
  (c9_uidl_error_no_silent_empty cCmdErr 7).1 (Err.external ("no such message")) (by decide)

/-! ### The collecting loop of `GetList`, in closed form -/

/-- The item the first loop of `GetList` builds for index `i` of the
listing, before its email field is populated. -/
def baseItems (msgs sizes : List Int) : List MailItem :=
  List.zipWith (fun m s => ⟨Email.zero, s, m⟩) msgs sizes

/-- How many items the collecting loop keeps when started at `i = j - 1`
over `num` messages with cap `n`. -/
def takeCount (n : Int) (num j : Nat) : Nat :=
  if n ≤ 0 then j else min j (max 1 ((j : Int) + n - (num : Int)).toNat)

theorem baseItems_length (msgs sizes : List Int) (hlen : msgs.length = sizes.length) :
    (baseItems msgs sizes).length = msgs.length := by
  simp [baseItems, hlen]

theorem baseItems_map (msgs sizes : List Int) :
    (baseItems msgs sizes).map (fun it => (it.MsgNum, it.Size)) = msgs.zip sizes := by
  rw [baseItems, List.map_zipWith, List.zip_eq_zipWith]

/-- Closed form of the collecting loop, generalized over the start index:
started at `i = j - 1` it returns the last `takeCount n num j` of the first
`j` base items, newest first. -/
theorem collectIter_eq_take (msgs sizes : List Int) (n : Int)
    (hlen : msgs.length = sizes.length) :
    ∀ j, j ≤ msgs.length →
      collectIter msgs sizes n msgs.length j =
        (((baseItems msgs sizes).take j).reverse).take (takeCount n msgs.length j) := by
  intro j
  induction j with
  | zero => intro _; simp [collectIter, takeCount]
  | succ j ih =>
    intro hj
    have hj' : j < msgs.length := by omega
    have hbl : (baseItems msgs sizes).length = msgs.length := baseItems_length msgs sizes hlen
    have hjb : j < (baseItems msgs sizes).length := by omega
    have hget : (baseItems msgs sizes)[j]? =
        some ⟨Email.zero, sizes.getD j 0, msgs.getD j 0⟩ := by
      have hjs : j < sizes.length := by omega
      rw [List.getElem?_eq_getElem hjb]
      simp only [baseItems, List.getElem_zipWith]
      rw [List.getD_eq_getElem sizes 0 hjs, List.getD_eq_getElem msgs 0 hj']
    have htake : (baseItems msgs sizes).take (j + 1) =
        (baseItems msgs sizes).take j ++ [⟨Email.zero, sizes.getD j 0, msgs.getD j 0⟩] := by
      rw [List.take_succ, hget]
      rfl
    simp only [collectIter]
    by_cases hbr : n > 0 ∧ (msgs.length : Int) - (j : Int) ≥ n
    · rw [if_pos hbr]
      have htc : takeCount n msgs.length (j + 1) = 1 := by
        unfold takeCount
        rw [if_neg (by omega)]
        omega
      rw [htc, htake, List.reverse_concat']
      rfl
    · rw [if_neg hbr]
      have htc : takeCount n msgs.length (j + 1) = takeCount n msgs.length j + 1 := by
        unfold takeCount
        by_cases hn : n ≤ 0
        · rw [if_pos hn, if_pos hn]
        · rw [if_neg hn, if_neg hn]
          omega
      rw [htc, htake, List.reverse_concat', List.take_succ_cons, ih (by omega)]

/-- Closed form of the collecting loop as `GetList` runs it: the last
`n` (all, when `n ≤ 0`) base items, newest first. -/
theorem collectIter_closed (msgs sizes : List Int) (n : Int)
    (hlen : msgs.length = sizes.length) :
    collectIter msgs sizes n msgs.length msgs.length =
      ((baseItems msgs sizes).reverse).take
        (if n ≤ 0 then msgs.length else min msgs.length n.toNat) := by
  have h := collectIter_eq_take msgs sizes n hlen msgs.length (le_refl _)
  have hbl : (baseItems msgs sizes).length = msgs.length := baseItems_length msgs sizes hlen
  rw [h]
  have htake : (baseItems msgs sizes).take msgs.length = baseItems msgs sizes := by
    rw [← hbl, List.take_length]
  rw [htake]
  have htc : takeCount n msgs.length msgs.length =
      if n ≤ 0 then msgs.length else min msgs.length n.toNat := by
    unfold takeCount
    by_cases hn : n ≤ 0
    · rw [if_pos hn, if_pos hn]
    · rw [if_neg hn, if_neg hn]
      omega
  rw [htc]

/-- Unfolding `GetList` on a well-shaped listing is the info-filling pass over the
collected items. -/
theorem getList_eq_fill (c : Client) (n : Int) (msgs sizes : List Int)
    (hl : c.ListAll = Except.ok (msgs, sizes)) (hlen : msgs.length = sizes.length) :
    GetList c n = fillInfo c (collectIter msgs sizes n msgs.length msgs.length) := by
  unfold GetList
  rw [hl]
  simp [hlen]

/-- The info-filling pass preserves length, order, message numbers and
sizes of the items. -/
theorem fillInfo_ok_map (c : Client) :
    ∀ l l2 : List MailItem, fillInfo c l = Outcome.ok l2 →
      l2.map (fun it => (it.MsgNum, it.Size)) = l.map (fun it => (it.MsgNum, it.Size)) := by
  intro l
  induction l with
  | nil =>
    intro l2 h
    unfold fillInfo at h
    cases h
    rfl
  | cons item rest ih =>
    intro l2 h
    unfold fillInfo at h
    cases hg : GetInfo c item.MsgNum with
    | fail e => rw [hg] at h; simp at h
    | crash => rw [hg] at h; simp at h
    | ok em =>
      rw [hg] at h
      cases hr : fillInfo c rest with
      | fail e => rw [hr] at h; simp at h
      | crash => rw [hr] at h; simp at h
      | ok rest2 =>
        rw [hr] at h
        cases h
        simp [ih rest2 hr]

/-- What a successful `GetList` returns, as message-number/size pairs. -/
theorem getList_ok_pairs (c : Client) (n : Int) (msgs sizes : List Int)
    (list : List MailItem)
    (hl : c.ListAll = Except.ok (msgs, sizes)) (hlen : msgs.length = sizes.length)
    (hok : GetList c n = Outcome.ok list) :
    list.map (fun it => (it.MsgNum, it.Size)) =
      ((msgs.zip sizes).reverse).take
        (if n ≤ 0 then msgs.length else min msgs.length n.toNat) := by
  rw [getList_eq_fill c n msgs sizes hl hlen, collectIter_closed msgs sizes n hlen] at hok
  have hmap := fillInfo_ok_map c _ _ hok
  rw [hmap, List.map_take, List.map_reverse, baseItems_map]

/-- Message numbers of a successful `GetList`, in order. -/
theorem getList_ok_msgnums (c : Client) (n : Int) (msgs sizes : List Int)
    (list : List MailItem)
    (hl : c.ListAll = Except.ok (msgs, sizes)) (hlen : msgs.length = sizes.length)
    (hok : GetList c n = Outcome.ok list) :
    list.map MailItem.MsgNum =
      (msgs.reverse).take (if n ≤ 0 then msgs.length else min msgs.length n.toNat) := by
  have hpairs := getList_ok_pairs c n msgs sizes list hl hlen hok
  have h1 : list.map MailItem.MsgNum =
      (list.map (fun it => (it.MsgNum, it.Size))).map Prod.fst := by
    rw [List.map_map]
    rfl
  rw [h1, hpairs, List.map_take, List.map_reverse,
    List.map_fst_zip msgs sizes (le_of_eq hlen)]

/-- On an ascending listing, a successful `GetList` is strictly decreasing
in message number. -/
theorem getList_ok_pairwise (c : Client) (n : Int) (msgs sizes : List Int)
    (list : List MailItem)
    (hl : c.ListAll = Except.ok (msgs, sizes)) (hlen : msgs.length = sizes.length)
    (hasc : List.Pairwise (fun a b => a < b) msgs)
    (hok : GetList c n = Outcome.ok list) :
    List.Pairwise (fun a b => b < a) (list.map MailItem.MsgNum) := by
  rw [getList_ok_msgnums c n msgs sizes list hl hlen hok]
  have hrev : (msgs.reverse).Pairwise (fun a b => b < a) :=
    List.pairwise_reverse.mpr hasc
  exact List.Pairwise.sublist (List.take_sublist _ _) hrev

/-- Length of a successful `GetList`. -/
theorem getList_ok_length (c : Client) (n : Int) (msgs sizes : List Int)
    (list : List MailItem)
    (hl : c.ListAll = Except.ok (msgs, sizes)) (hlen : msgs.length = sizes.length)
    (hok : GetList c n = Outcome.ok list) :
    list.length =
      min (if n ≤ 0 then msgs.length else min msgs.length n.toNat) msgs.length := by
  have hpairs := getList_ok_pairs c n msgs sizes list hl hlen hok
  have h := congrArg List.length hpairs
  simp only [List.length_map, List.length_take, List.length_reverse,
    List.length_zip] at h
  omega

/-! ### C1 -/

/-- C1: on a listing of `m` messages in ascending message-number order with
matching sizes, a successful `GetList n` with `0 < n ≤ m` returns exactly
`n` summaries, and with `n ≤ 0` all `m` summaries; in both cases they are
in strictly decreasing message-number order and each summary carries the
size paired with its message number in the listing (the reversed,
truncated zip of the two arrays). -/
theorem c1_getList_count_order_pairing (c : Client) (n : Int) (msgs sizes : List Int)
    (list : List MailItem)
    (hl : c.ListAll = Except.ok (msgs, sizes))
    (hlen : msgs.length = sizes.length)
    (hasc : List.Pairwise (fun a b => a < b) msgs)
    (hok : GetList c n = Outcome.ok list) :
    List.Pairwise (fun a b => b < a) (list.map MailItem.MsgNum) ∧
    (0 < n → n.toNat ≤ msgs.length →
      list.length = n.toNat ∧
      list.map (fun it => (it.MsgNum, it.Size)) = ((msgs.zip sizes).reverse).take n.toNat) ∧
    (n ≤ 0 →
      list.length = msgs.length ∧
      list.map (fun it => (it.MsgNum, it.Size)) = (msgs.zip sizes).reverse) := by
  have hpairs := getList_ok_pairs c n msgs sizes list hl hlen hok
  have hlength := getList_ok_length c n msgs sizes list hl hlen hok
  refine ⟨getList_ok_pairwise c n msgs sizes list hl hlen hasc hok, ?_, ?_⟩
  · intro hn0 hnm
    rw [if_neg (by omega)] at hpairs hlength
    have hmin : min msgs.length n.toNat = n.toNat := by omega
    rw [hmin] at hpairs
    exact ⟨by omega, hpairs⟩
  · intro hn
    rw [if_pos hn] at hpairs hlength
    have hzl : ((msgs.zip sizes).reverse).length = msgs.length := by
      simp [List.length_zip]
      omega
    rw [← hzl, List.take_length] at hpairs
    exact ⟨by omega, hpairs⟩

/-- C1 witness: mailbox `[1, 2]` with sizes `[10, 20]`; `GetList 1` keeps
exactly the newest message. -/
theorem c1_witness :
    GetList cGood 1 = Outcome.ok [⟨⟨""⟩, 20, 2⟩] ∧
      ([(⟨⟨""⟩, 20, 2⟩ : MailItem)].map (fun it => (it.MsgNum, it.Size)) =
        ((([(1 : Int), 2]).zip ([(10 : Int), 20])).reverse).take (1 : Int).toNat) := by
  have h := c1_getList_count_order_pairing cGood 1 [1, 2] [10, 20]
    [⟨⟨""⟩, 20, 2⟩] rfl (by decide) (by decide) (by decide)
  exact ⟨by decide, (h.2.1 (by decide) (by decide)).2⟩

/-! ### C10 -/

/-- C10: for `n > 0` on a mailbox with fewer than `n` messages, a
successful `GetList n` returns all summaries, newest first — the cap only
bites when the mailbox has at least `n` messages. -/
theorem c10_getList_cap_exceeds_mailbox (c : Client) (n : Int) (msgs sizes : List Int)
    (list : List MailItem)
    (hl : c.ListAll = Except.ok (msgs, sizes))
    (hlen : msgs.length = sizes.length)
    (hasc : List.Pairwise (fun a b => a < b) msgs)
    (hn0 : 0 < n)
    (hm : (msgs.length : Int) < n)
    (hok : GetList c n = Outcome.ok list) :
    list.length = msgs.length ∧
    list.map (fun it => (it.MsgNum, it.Size)) = (msgs.zip sizes).reverse ∧
    List.Pairwise (fun a b => b < a) (list.map MailItem.MsgNum) := by
  have hpairs := getList_ok_pairs c n msgs sizes list hl hlen hok
  have hlength := getList_ok_length c n msgs sizes list hl hlen hok
  rw [if_neg (by omega)] at hpairs hlength
  have hmin : min msgs.length n.toNat = msgs.length := by omega
  rw [hmin] at hpairs
  have hzl : ((msgs.zip sizes).reverse).length = msgs.length := by
    simp [List.length_zip]
    omega
  rw [← hzl, List.take_length] at hpairs
  exact ⟨by omega, hpairs,
    getList_ok_pairwise c n msgs sizes list hl hlen hasc hok⟩

/-- C10 witness: `GetList 5` on the two-message mailbox returns both
summaries, newest first. -/
theorem c10_witness :
    GetList cGood 5 = Outcome.ok [⟨⟨""⟩, 20, 2⟩, ⟨⟨""⟩, 10, 1⟩] ∧
      ([⟨⟨""⟩, 20, 2⟩, (⟨⟨""⟩, 10, 1⟩ : MailItem)].map (fun it => (it.MsgNum, it.Size)) =
        (([(1 : Int), 2]).zip ([(10 : Int), 20])).reverse) := by
  have h := c10_getList_cap_exceeds_mailbox cGood 5 [1, 2] [10, 20]
    [⟨⟨""⟩, 20, 2⟩, ⟨⟨""⟩, 10, 1⟩] rfl (by decide) (by decide) (by decide) (by decide)
    (by decide)
  exact ⟨by decide, h.2.1⟩

/-! ### C2 -/

/-- Fallback item for `getD`; the indices in the theorems are in bounds. -/
def item0 : MailItem := ⟨Email.zero, 0, 0⟩

/-- If the first `k` `GetInfo` calls of the filling loop succeed and the
`k`-th fails, the loop returns that failure. -/
theorem fillInfo_first_fail (c : Client) :
    ∀ (l : List MailItem) (k : Nat) (e : Err),
      k < l.length →
      (∀ j, j < k → ∃ em, GetInfo c ((l.getD j item0).MsgNum) = Outcome.ok em) →
      GetInfo c ((l.getD k item0).MsgNum) = Outcome.fail e →
      fillInfo c l = Outcome.fail e := by
  intro l
  induction l with
  | nil =>
    intro k e hk
    simp at hk
  | cons item rest ih =>
    intro k e hk hprev hfail
    unfold fillInfo
    cases k with
    | zero =>
      rw [show (item :: rest).getD 0 item0 = item from rfl] at hfail
      rw [hfail]
    | succ k =>
      obtain ⟨em, hem⟩ := hprev 0 (Nat.succ_pos k)
      rw [show (item :: rest).getD 0 item0 = item from rfl] at hem
      rw [hem]
      have hrest : fillInfo c rest = Outcome.fail e := by
        apply ih k e
        · simpa using hk
        · intro j hj
          have := hprev (j + 1) (by omega)
          simpa using this
        · simpa using hfail
      rw [hrest]

/-- C2: when the `GetInfo` call for the `k`-th collected item fails and all
earlier ones succeed, `GetList` returns exactly that first error: the
outcome carries no list (no partial result reaches the caller), and since
the hypotheses say nothing about `GetInfo` on the items after `k`, the
failure is independent of them — no further `GetInfo` call influences the
result. -/
theorem c2_getList_info_failure_aborts (c : Client) (n : Int) (msgs sizes : List Int)
    (items : List MailItem) (k : Nat) (e : Err)
    (hl : c.ListAll = Except.ok (msgs, sizes))
    (hlen : msgs.length = sizes.length)
    (hitems : items = collectIter msgs sizes n msgs.length msgs.length)
    (hk : k < items.length)
    (hprev : ∀ j, j < k → ∃ em, GetInfo c ((items.getD j item0).MsgNum) = Outcome.ok em)
    (hfail : GetInfo c ((items.getD k item0).MsgNum) = Outcome.fail e) :
    GetList c n = Outcome.fail e := by
  rw [getList_eq_fill c n msgs sizes hl hlen, ← hitems]
  exact fillInfo_first_fail c items k e hk hprev hfail

/-- C2 witness: one message whose `TOP` is rejected; `GetList` fails with
that error. -/
theorem c2_witness : GetList cInfoFail 0 = Outcome.fail (Err.external ("no top")) :=
  c2_getList_info_failure_aborts cInfoFail 0 [1] [10] [⟨⟨""⟩, 10, 1⟩] 0
    (Err.external ("no top")) rfl (by decide) (by decide) (by decide)
    (fun j hj => absurd hj (Nat.not_lt_zero j)) (by decide)

/-! ### Lemmas about the `UidlAll` line parse -/

theorem lt_of_getElem?_some {α : Type} {l : List α} {i : Nat} {a : α}
    (h : l[i]? = some a) : i < l.length := by
  by_contra hc
  rw [List.getElem?_eq_none (by omega)] at h
  exact Option.noConfusion h

theorem getD_of_getElem? {α : Type} {l : List α} {i : Nat} {a : α} (d : α)
    (h : l[i]? = some a) : l.getD i d = a := by
  rw [List.getD_eq_getD_get?, List.get?_eq_getElem?, h]
  rfl

/-- A line the parse loop walks through without error or crash: at least
two fields, and the first parses as an integer. -/
def parsesFully (l : String) : Prop :=
  2 ≤ (fields l).length ∧ ∃ m, atoi ((fields l).getD 0 "") = Except.ok m

/-- A line on which the parse loop returns the error `e`: it has a first
field and `strconv.Atoi` rejects it with `e`. -/
def firstFieldBad (l : String) (e : Err) : Prop :=
  1 ≤ (fields l).length ∧ atoi ((fields l).getD 0 "") = Except.error e

/-- What a successful line parse contains: one message number and one
unique id per line, both taken from that very line. -/
theorem uidlParseLines_ok_elim :
    ∀ (lines : List String) (ms : List Int) (us : List String),
      uidlParseLines lines = Outcome.ok (ms, us) →
      ms.length = lines.length ∧ us.length = lines.length ∧
      ∀ i, i < lines.length →
        atoi ((fields (lines.getD i "")).getD 0 "") = Except.ok (ms.getD i 0) ∧
        (fields (lines.getD i "")).getD 1 "" = us.getD i "" := by
  intro lines
  induction lines with
  | nil =>
    intro ms us h
    unfold uidlParseLines at h
    cases h
    exact ⟨rfl, rfl, fun i hi => absurd hi (by simp)⟩
  | cons l rest ih =>
    intro ms us h
    unfold uidlParseLines at h
    cases hf0 : (fields l)[0]? with
    | none => rw [hf0] at h; simp at h
    | some f0 =>
      rw [hf0] at h
      simp only [] at h
      cases ha : atoi f0 with
      | error e => rw [ha] at h; simp at h
      | ok m =>
        rw [ha] at h
        simp only [] at h
        cases hf1 : (fields l)[1]? with
        | none => rw [hf1] at h; simp at h
        | some f1 =>
          rw [hf1] at h
          simp only [] at h
          cases hr : uidlParseLines rest with
          | fail e => rw [hr] at h; simp at h
          | crash => rw [hr] at h; simp at h
          | ok p =>
            obtain ⟨ms2, us2⟩ := p
            rw [hr] at h
            simp only [Outcome.ok.injEq, Prod.mk.injEq] at h
            obtain ⟨h4, h5⟩ := h
            subst h4
            subst h5
            obtain ⟨h1, h2, h3⟩ := ih ms2 us2 hr
            refine ⟨by simp [h1], by simp [h2], ?_⟩
            intro i hi
            cases i with
            | zero =>
              refine ⟨?_, ?_⟩
              · rw [show ((l :: rest).getD 0 "") = l from rfl,
                  getD_of_getElem? "" hf0]
                exact ha
              · rw [show ((l :: rest).getD 0 "") = l from rfl,
                  getD_of_getElem? "" hf1]
                rfl
            | succ i =>
              have := h3 i (by simpa using hi)
              simpa using this

/-- Reaching and failing on the first offending line: if the `k`-th line
is the first whose leading field fails to parse, the loop fails with that
line's parse error, whatever lines follow it. -/
theorem uidlParseLines_fail_intro :
    ∀ (k : Nat) (lines : List String) (e : Err) (rest : List String),
      k < lines.length →
      (∀ j, j < k → parsesFully (lines.getD j "")) →
      firstFieldBad (lines.getD k "") e →
      uidlParseLines ((lines.take (k + 1)) ++ rest) = Outcome.fail e := by
  intro k
  induction k with
  | zero =>
    intro lines e rest hk hprev hbad
    cases lines with
    | nil => simp at hk
    | cons l tl =>
      obtain ⟨hlen1, hat⟩ := hbad
      rw [show ((l :: tl).getD 0 "") = l from rfl] at hat
      have h0 : 0 < (fields l).length := by
        rw [show ((l :: tl).getD 0 "") = l from rfl] at hlen1
        omega
      have hf0 : (fields l)[0]? = some ((fields l).getD 0 "") := by
        rw [List.getElem?_eq_getElem h0, List.getD_eq_getElem _ _ h0]
      simp only [List.take_succ_cons, List.take_zero, List.cons_append,
        List.nil_append]
      unfold uidlParseLines
      simp only [hf0, hat]
  | succ k ihk =>
    intro lines e rest hk hprev hbad
    cases lines with
    | nil => simp at hk
    | cons l tl =>
      have hp0 : parsesFully l := by
        have := hprev 0 (by omega)
        simpa using this
      obtain ⟨hl2, m, hm⟩ := hp0
      have h0 : 0 < (fields l).length := by omega
      have h1 : 1 < (fields l).length := by omega
      have hf0 : (fields l)[0]? = some ((fields l).getD 0 "") := by
        rw [List.getElem?_eq_getElem h0, List.getD_eq_getElem _ _ h0]
      have hf1 : (fields l)[1]? = some ((fields l).getD 1 "") := by
        rw [List.getElem?_eq_getElem h1, List.getD_eq_getElem _ _ h1]
      have hrec := ihk tl e rest (by simpa using hk)
        (fun j hj => by simpa using hprev (j + 1) (by omega))
        (by simpa using hbad)
      simp only [List.take_succ_cons, List.cons_append]
      unfold uidlParseLines
      simp only [hf0, hm, hf1, hrec]

/-- Every failure of the line parse comes from the first offending line. -/
theorem uidlParseLines_fail_elim :
    ∀ (lines : List String) (e : Err),
      uidlParseLines lines = Outcome.fail e →
      ∃ k, k < lines.length ∧ (∀ j, j < k → parsesFully (lines.getD j "")) ∧
        firstFieldBad (lines.getD k "") e := by
  intro lines
  induction lines with
  | nil =>
    intro e h
    unfold uidlParseLines at h
    simp at h
  | cons l rest ih =>
    intro e h
    unfold uidlParseLines at h
    cases hf0 : (fields l)[0]? with
    | none => rw [hf0] at h; simp at h
    | some f0 =>
      rw [hf0] at h
      simp only [] at h
      cases ha : atoi f0 with
      | error e2 =>
        rw [ha] at h
        have he : e2 = e := by simpa using h
        subst he
        refine ⟨0, by simp, fun j hj => absurd hj (by omega), ?_, ?_⟩
        · rw [show ((l :: rest).getD 0 "") = l from rfl]
          have := lt_of_getElem?_some hf0
          omega
        · rw [show ((l :: rest).getD 0 "") = l from rfl,
            getD_of_getElem? "" hf0]
          exact ha
      | ok m =>
        rw [ha] at h
        simp only [] at h
        cases hf1 : (fields l)[1]? with
        | none => rw [hf1] at h; simp at h
        | some f1 =>
          rw [hf1] at h
          simp only [] at h
          cases hr : uidlParseLines rest with
          | ok p =>
            obtain ⟨ms2, us2⟩ := p
            rw [hr] at h
            simp at h
          | crash => rw [hr] at h; simp at h
          | fail e2 =>
            rw [hr] at h
            have he : e2 = e := by simpa using h
            subst he
            obtain ⟨k, hk, hprev, hbad⟩ := ih e2 hr
            refine ⟨k + 1, by simpa using hk, ?_, by simpa using hbad⟩
            intro j hj
            cases j with
            | zero =>
              rw [show ((l :: rest).getD 0 "") = l from rfl]
              refine ⟨lt_of_getElem?_some hf1, m, ?_⟩
              rw [getD_of_getElem? "" hf0]
              exact ha
            | succ j =>
              have := hprev j (by omega)
              simpa using this

/-! ### C4 -/

/-- C4: a successful `UidlAll` returns message-number and unique-id lists
of equal length, and each corresponding pair is built from the same
response line: field 0 of line `i` parses to the `i`-th message number and
field 1 of line `i` is the `i`-th unique id.  Conditioning on a returned
value makes the claim's disjunction exact: either this pairing holds or
the call did not return a value. -/
theorem c4_uidlAll_equal_length_pairing (c : Client) (ms : List Int) (us : List String)
    (hok : UidlAll c = Outcome.ok (ms, us)) :
    ms.length = us.length ∧
    ∃ lines, c.ReadLines uidlAllCommand = Except.ok lines ∧
      ms.length = lines.length ∧
      ∀ i, i < lines.length →
        atoi ((fields (lines.getD i "")).getD 0 "") = Except.ok (ms.getD i 0) ∧
        (fields (lines.getD i "")).getD 1 "" = us.getD i "" := by
  unfold UidlAll at hok
  cases hc : c.Cmd uidlAllCommand with
  | error e => rw [hc] at hok; simp at hok
  | ok s =>
    rw [hc] at hok
    simp only [] at hok
    cases hr : c.ReadLines uidlAllCommand with
    | error e => rw [hr] at hok; simp at hok
    | ok lines =>
      rw [hr] at hok
      simp only [] at hok
      obtain ⟨h1, h2, h3⟩ := uidlParseLines_ok_elim lines ms us hok
      exact ⟨by omega, lines, rfl, by omega, h3⟩

/-- C4 witness: a two-line reply produces two numbers and two ids. -/
theorem c4_witness :
    UidlAll cUidl = Outcome.ok ([1, 2], ["aaa", "bbb"]) ∧
      ([(1 : Int), 2].length = (["aaa", "bbb"] : List String).length) := by
  have h := c4_uidlAll_equal_length_pairing cUidl [1, 2] ["aaa", "bbb"] (by decide)
  exact ⟨by decide, h.1⟩

/-! ### C5 -/

/-- C5: `UidlAll` fails exactly when the `UIDL` command fails, the
multi-line read fails, or some response line's first field is not a valid
integer — precisely, the first line whose leading field `strconv.Atoi`
rejects, all earlier lines parsing fully; in that case the surfaced error
is that line's parse error, and the parse of the reply does not depend on
the lines after the offending one (any tail gives the same failure). -/
theorem c5_uidlAll_error_cases (c : Client) :
    (∀ e, c.Cmd uidlAllCommand = Except.error e → UidlAll c = Outcome.fail e) ∧
    (∀ s e, c.Cmd uidlAllCommand = Except.ok s →
      c.ReadLines uidlAllCommand = Except.error e → UidlAll c = Outcome.fail e) ∧
    (∀ (s : String) (lines : List String) (k : Nat) (e : Err),
      c.Cmd uidlAllCommand = Except.ok s →
      c.ReadLines uidlAllCommand = Except.ok lines →
      k < lines.length →
      (∀ j, j < k → parsesFully (lines.getD j "")) →
      firstFieldBad (lines.getD k "") e →
      UidlAll c = Outcome.fail e) ∧
    (∀ (lines rest : List String) (k : Nat) (e : Err),
      k < lines.length →
      (∀ j, j < k → parsesFully (lines.getD j "")) →
      firstFieldBad (lines.getD k "") e →
      uidlParseLines ((lines.take (k + 1)) ++ rest) = Outcome.fail e) ∧
    (∀ e, UidlAll c = Outcome.fail e →
      c.Cmd uidlAllCommand = Except.error e ∨
      (∃ s, c.Cmd uidlAllCommand = Except.ok s ∧
        c.ReadLines uidlAllCommand = Except.error e) ∨
      (∃ s lines k, c.Cmd uidlAllCommand = Except.ok s ∧
        c.ReadLines uidlAllCommand = Except.ok lines ∧
        k < lines.length ∧ (∀ j, j < k → parsesFully (lines.getD j "")) ∧
        firstFieldBad (lines.getD k "") e)) := by
  refine ⟨?_, ?_, ?_, ?_, ?_⟩
  · intro e he
    unfold UidlAll
    rw [he]
  · intro s e hc hr
    unfold UidlAll
    rw [hc]
    simp only []
    rw [hr]
  · intro s lines k e hc hr hk hprev hbad
    unfold UidlAll
    rw [hc]
    simp only []
    rw [hr]
    simp only []
    have h := uidlParseLines_fail_intro k lines e (lines.drop (k + 1)) hk hprev hbad
    rw [List.take_append_drop] at h
    exact h
  · intro lines rest k e hk hprev hbad
    exact uidlParseLines_fail_intro k lines e rest hk hprev hbad
  · intro e hfail
    unfold UidlAll at hfail
    cases hc : c.Cmd uidlAllCommand with
    | error e2 =>
      rw [hc] at hfail
      simp only [] at hfail
      have he : e2 = e := by simpa using hfail
      subst he
      exact Or.inl rfl
    | ok s =>
      rw [hc] at hfail
      simp only [] at hfail
      cases hr : c.ReadLines uidlAllCommand with
      | error e2 =>
        rw [hr] at hfail
        simp only [] at hfail
        have he : e2 = e := by simpa using hfail
        subst he
        exact Or.inr (Or.inl ⟨s, rfl, rfl⟩)
      | ok lines =>
        rw [hr] at hfail
        simp only [] at hfail
        obtain ⟨k, hk, hprev, hbad⟩ := uidlParseLines_fail_elim lines e hfail
        exact Or.inr (Or.inr ⟨s, lines, k, rfl, rfl, hk, hprev, hbad⟩)

/-- C5 witness: a reply whose only line starts with a non-numeric field
makes `UidlAll` surface that line's parse error. -/
theorem c5_witness : UidlAll cBadLine = Outcome.fail (Err.atoiErr ("x")) :=
  (c5_uidlAll_error_cases cBadLine).2.2.1 "" ["x yy"] 0 (Err.atoiErr ("x"))
    rfl rfl (by decide) (fun j hj => absurd hj (Nat.not_lt_zero j))
    (by exact ⟨by decide, by decide⟩)

/-! ### C3 -/

/-- C3 counterexample: the base client accepts the single-line reply `""`,
which has zero whitespace-separated fields, and on it the indexing
`strings.Fields(l)[1]` performed by `UIDL` is out of bounds: the call
crashes.  This refutes the claim that the indexing is in bounds for all
accepted lines including those with fewer than two fields. -/
theorem c3_counterexample :
    cBadLine.Cmd (uidlMsgCommand 1) = Except.ok ("") ∧
    (fields ("")).length < 2 ∧
    UIDL cBadLine 1 = Outcome.crash :=
  ⟨rfl, by decide, by decide⟩

/-- C3 amended: the indexing is in bounds exactly for accepted lines with
at least two whitespace-separated fields.  In `UIDL`, such a line yields
its second field and a shorter line makes the indexing out of range
(crash); in `UidlAll`, a response line with no fields — or with exactly
one field that parses as an integer — makes the loop's indexing out of
range (crash). -/
theorem c3_amended_bounds :
    (∀ (c : Client) (msg : Int) (l : String), c.Cmd (uidlMsgCommand msg) = Except.ok l →
      (2 ≤ (fields l).length → UIDL c msg = Outcome.ok ((fields l).getD 1 "")) ∧
      ((fields l).length < 2 → UIDL c msg = Outcome.crash)) ∧
    (∀ (c : Client) (s l : String) (tl : List String),
      c.Cmd uidlAllCommand = Except.ok s →
      c.ReadLines uidlAllCommand = Except.ok (l :: tl) →
      ((fields l).length = 0 → UidlAll c = Outcome.crash) ∧
      (∀ m, (fields l).length = 1 → atoi ((fields l).getD 0 "") = Except.ok m →
        UidlAll c = Outcome.crash)) := by
  constructor
  · intro c msg l hc
    constructor
    · intro h2
      have h1 : 1 < (fields l).length := by omega
      have hf1 : (fields l)[1]? = some ((fields l).getD 1 "") := by
        rw [List.getElem?_eq_getElem h1, List.getD_eq_getElem _ _ h1]
      unfold UIDL
      rw [hc]
      simp only [hf1]
    · intro h2
      have hf1 : (fields l)[1]? = none := List.getElem?_eq_none (by omega)
      unfold UIDL
      rw [hc]
      simp only [hf1]
  · intro c s l tl hc hr
    constructor
    · intro h0
      have hf0 : (fields l)[0]? = none := List.getElem?_eq_none (by omega)
      unfold UidlAll
      rw [hc]
      simp only []
      rw [hr]
      simp only []
      unfold uidlParseLines
      simp only [hf0]
    · intro m h1 hm
      have hf0 : (fields l)[0]? = some ((fields l).getD 0 "") := by
        rw [List.getElem?_eq_getElem (by omega : 0 < (fields l).length),
          List.getD_eq_getElem _ _ (by omega : 0 < (fields l).length)]
      have hf1 : (fields l)[1]? = none := List.getElem?_eq_none (by omega)
      unfold UidlAll
      rw [hc]
      simp only []
      rw [hr]
      simp only []
      unfold uidlParseLines
      simp only [hf0, hm, hf1]

/-- C3 amended witness: a well-formed two-field line is indexed in bounds
and yields its second field. -/
theorem c3_amended_witness :
    UIDL cGood 1 = Outcome.ok ((fields ("1 uid1")).getD 1 "") :=
  ((c3_amended_bounds.1 cGood 1 ("1 uid1") rfl).1 (by decide))

end Pop3
